import Mathlib

/-!
Shallow embedding of the `libstore` Go package: the storage contract
(`Ops`), the error taxonomy and its numeric translation layer
(`NewError` / `TranslateToError`), the in-memory adapter
(`InMemoryOps`), the PostgreSQL adapter's create/read path (`dbOps`),
and the encryption decorator (`CryptStore`) with its freshness
timestamp handling (`tsFormat` formatting, parsing, and the
strictly-in-the-future validation check).

Byte strings (`[]byte` and Go `string`, which is a byte sequence) are
modelled as `List Nat`; `time.Time` values produced by
`time.Now().UTC()` are modelled as a record of broken-down UTC calendar
fields, which is exactly what the decorator formats, parses and
compares.
-/

/-- Go `[]byte` (also Go `string`, which is just an immutable byte
sequence). -/
abbrev Bytes := List Nat

/-! ## Error taxonomy (src/ops.go and src/cryptor.go) -/

/-- The closed set of error values that flow through the package:
the five named kinds declared in ops.go, the decorator-specific kinds
declared in cryptor.go, wrapped errors built via
`fmt.Errorf("%w: %w", a, b)`, errors from `errors.New`, parse errors
from `time.Parse`, and opaque errors from external libraries
(e.g. libcipher). -/
inductive GoError where
  | locationError : String → GoError
  | keyError : String → GoError
  | entryError : String → GoError
  | opsInternalError : String → GoError
  | keyNotFoundError : String → GoError
  | validationError : String → GoError
  | decryptionError : String → GoError
  | timestampError : String → GoError
  | timeParseError : Bytes → GoError
  | wrapped : GoError → GoError → GoError
  | errorsNew : String → GoError
  | external : String → GoError
deriving DecidableEq, Repr

/-- The `Error()` method of each error type: the five ops.go kinds
prefix "libstore: ", the cryptor.go kinds have their own prefixes, and
a wrapped error `fmt.Errorf("%w: %w", a, b)` renders as
`a.Error() + ": " + b.Error()`. -/
def GoError.message : GoError → String
  | .locationError s => "libstore: " ++ s
  | .keyError s => "libstore: " ++ s
  | .entryError s => "libstore: " ++ s
  | .opsInternalError s => "libstore: " ++ s
  | .keyNotFoundError s => "libstore: " ++ s
  | .validationError s => "libstore/ops: validation error: " ++ s
  | .decryptionError s => "libstore/ops: decryption error: " ++ s
  | .timestampError s => "libstore/ops: timestamp error: " ++ s
  | .timeParseError _ => "parsing time: invalid format"
  | .wrapped a b => a.message ++ ": " ++ b.message
  | .errorsNew s => s
  | .external s => s

/-- The `Error` struct of cryptor.go carrying a stable integer code
(`ErrorCode`, iota-numbered 0..5) plus a message. -/
structure Error where
  code : Int
  message : String
deriving DecidableEq, Repr

/-- `NewError` of cryptor.go: a `switch err.(type)` on the dynamic
type of the error, so only the five exact named kinds are recognized;
everything else (including wrapped errors, whose dynamic type is
`*fmt.wrapError`) falls to the default `ErrUnknown` case. -/
def NewError (err : GoError) : Error :=
  match err with
  | .locationError _ => { code := 1, message := err.message }
  | .keyError _ => { code := 2, message := err.message }
  | .entryError _ => { code := 3, message := err.message }
  | .opsInternalError _ => { code := 4, message := err.message }
  | .keyNotFoundError _ => { code := 5, message := err.message }
  | _ => { code := 0, message := "unknown error" }

/-- `TranslateToError` of cryptor.go: codes 1..5 reconstruct the five
named kinds; any other code yields `errors.New(message)`. -/
def TranslateToError (code : Int) (message : String) : GoError :=
  match code with
  | 1 => .locationError message
  | 2 => .keyError message
  | 3 => .entryError message
  | 4 => .opsInternalError message
  | 5 => .keyNotFoundError message
  | _ => .errorsNew message

/-- Helper predicate: `e` is one of the five named error kinds that
`NewError`'s type switch recognizes. -/
def isNamedKind : GoError → Bool
  | .locationError _ => true
  | .keyError _ => true
  | .entryError _ => true
  | .opsInternalError _ => true
  | .keyNotFoundError _ => true
  | _ => false

/-! ## Time model

`time.Now().UTC()` produces a UTC instant; the decorator only ever
formats it with `tsFormat`, parses such text back, and compares two
instants with `After`. A UTC instant is therefore modelled by its
broken-down calendar fields. -/

/-- Broken-down UTC instant as observed through `Format`, `Parse`
and `After`. -/
structure GoTime where
  year : Nat
  month : Nat
  day : Nat
  hour : Nat
  minute : Nat
  sec : Nat
  nsec : Nat
deriving DecidableEq, Repr

/-- Mixed-radix encoding of the fields; for valid UTC field values it
orders instants exactly as Go's `time.Time` instant order does
(calendar order is lexicographic on the fields). -/
def timeKey (t : GoTime) : Nat :=
  (((((t.year * 13 + t.month) * 32 + t.day) * 24 + t.hour) * 60 + t.minute) * 60 + t.sec)
    * 1000000000 + t.nsec

/-- Go `t.After(u)`: strictly later instant. -/
def timeAfter (t u : GoTime) : Bool :=
  decide (timeKey u < timeKey t)

/-- Leap year per the proleptic Gregorian calendar used by Go's
`time` package. -/
def isLeap (y : Nat) : Bool :=
  y % 4 = 0 && (y % 100 ≠ 0 || y % 400 = 0)

/-- Number of days in a month, as validated by Go's `time.Parse`. -/
def daysInMonth (y m : Nat) : Nat :=
  if m = 2 then (if isLeap y then 29 else 28)
  else if m = 4 ∨ m = 6 ∨ m = 9 ∨ m = 11 then 30
  else 31

/-- The instants `time.Now().UTC()` can produce (real calendar dates,
four-digit years, nanosecond precision). -/
def ValidTime (t : GoTime) : Prop :=
  t.year < 10000 ∧ 1 ≤ t.month ∧ t.month ≤ 12 ∧
  1 ≤ t.day ∧ t.day ≤ daysInMonth t.year t.month ∧
  t.hour < 24 ∧ t.minute < 60 ∧ t.sec < 60 ∧ t.nsec < 1000000000

instance (t : GoTime) : Decidable (ValidTime t) := by
  unfold ValidTime; infer_instance

/-! ## Timestamp formatting (`tsFormat = "2006-01-02 15:04:05.999999999 -0700 MST"`)

For a UTC time the reference layout renders as
`YYYY-MM-DD hh:mm:ss[.fraction] +0000 UTC`; the `.999999999` fragment
prints the fractional second with trailing zeros removed, and omits
the decimal point entirely when the fraction is zero. Text is a byte
sequence (ASCII codes). -/

/-- ASCII code of a decimal digit. -/
def digitByte (d : Nat) : Nat := 48 + d

/-- Zero-padded fixed-width decimal rendering, most significant digit
first: `natDigits k n` are the `k` ASCII digit bytes of `n < 10^k`. -/
def natDigits : Nat → Nat → Bytes
  | 0, _ => []
  | k + 1, n => digitByte (n / 10 ^ k) :: natDigits k (n % 10 ^ k)

/-- Remove up to `k` trailing decimal zeros from `n`, returning the
remaining value and the number of digits kept out of `k`. -/
def stripZeros : Nat → Nat → Nat × Nat
  | n, 0 => (n, 0)
  | n, k + 1 => if n % 10 = 0 then stripZeros (n / 10) k else (n, k + 1)

/-- The `.999999999` layout fragment: nothing when the nanosecond
field is zero, otherwise a dot followed by the 9-digit fraction with
trailing zeros removed. -/
def fracBytes (n : Nat) : Bytes :=
  if n = 0 then []
  else 46 :: natDigits (stripZeros n 9).2 (stripZeros n 9).1

/-- The fixed tail a UTC time renders under `"-0700 MST"`:
`" +0000 UTC"`. -/
def tsSuffix : Bytes := [32, 43, 48, 48, 48, 48, 32, 85, 84, 67]

/-- Go `t.Format(tsFormat)` for a UTC time `t`. -/
def timeFormat (t : GoTime) : Bytes :=
  natDigits 4 t.year ++ 45 :: natDigits 2 t.month ++ 45 :: natDigits 2 t.day ++
    32 :: natDigits 2 t.hour ++ 58 :: natDigits 2 t.minute ++ 58 :: natDigits 2 t.sec ++
    fracBytes t.nsec ++ tsSuffix

/-! ## Timestamp parsing (`time.Parse(tsFormat, s)`) -/

/-- ASCII decimal digit test. -/
def isDigitB (b : Nat) : Bool := 48 ≤ b && b ≤ 57

/-- Consume exactly `k` digit bytes, accumulating their value. -/
def readNat : Nat → Nat → Bytes → Option (Nat × Bytes)
  | 0, acc, bs => some (acc, bs)
  | _ + 1, _, [] => none
  | k + 1, acc, b :: bs =>
    if isDigitB b then readNat k (acc * 10 + (b - 48)) bs else none

/-- Consume one expected literal byte. -/
def expectByte (c : Nat) : Bytes → Option Bytes
  | [] => none
  | b :: bs => if b = c then some bs else none

/-- Split off the longest leading run of digit bytes. -/
def spanDigits : Bytes → Bytes × Bytes
  | [] => ([], [])
  | b :: bs =>
    if isDigitB b then
      ((b :: (spanDigits bs).1), (spanDigits bs).2)
    else ([], b :: bs)

/-- Value of a digit-byte run, most significant first. -/
def digitsVal (ds : Bytes) : Nat :=
  ds.foldl (fun acc b => acc * 10 + (b - 48)) 0

/-- Parse the optional fractional second of the `.999999999` layout
fragment: absent when the next byte is not a dot; otherwise one to
nine digits scaled up to nanoseconds. -/
def parseFrac : Bytes → Option (Nat × Bytes)
  | [] => some (0, [])
  | b :: bs =>
    if b = 46 then
      let p := spanDigits bs
      if p.1.length = 0 ∨ 9 < p.1.length then none
      else some (digitsVal p.1 * 10 ^ (9 - p.1.length), p.2)
    else some (0, b :: bs)

/-- The field-range validation Go's `time.Parse` performs on the
parsed date and clock values. -/
def validCheck (t : GoTime) : Bool :=
  1 ≤ t.month && t.month ≤ 12 && 1 ≤ t.day && t.day ≤ daysInMonth t.year t.month &&
    t.hour < 24 && t.minute < 60 && t.sec < 60

/-- Go `time.Parse(tsFormat, s)` for text produced by a UTC time:
fixed-width date and clock fields, optional variable-width fraction,
then the literal `" +0000 UTC"` tail. Returns `none` where Go returns
a `*time.ParseError`. -/
def timeParse (bs : Bytes) : Option GoTime :=
  (readNat 4 0 bs).bind fun y =>
  (expectByte 45 y.2).bind fun r1 =>
  (readNat 2 0 r1).bind fun mo =>
  (expectByte 45 mo.2).bind fun r2 =>
  (readNat 2 0 r2).bind fun d =>
  (expectByte 32 d.2).bind fun r3 =>
  (readNat 2 0 r3).bind fun h =>
  (expectByte 58 h.2).bind fun r4 =>
  (readNat 2 0 r4).bind fun mi =>
  (expectByte 58 mi.2).bind fun r5 =>
  (readNat 2 0 r5).bind fun s =>
  (parseFrac s.2).bind fun ns =>
  if ns.2 = tsSuffix then
    let t : GoTime :=
      { year := y.1, month := mo.1, day := d.1, hour := h.1,
        minute := mi.1, sec := s.1, nsec := ns.1 }
    if validCheck t then some t else none
  else none

/-! ## Storage contract and the in-memory adapter (src/ops.go, src/cryptor.go)

Operations are modelled as pure state-passing functions; reads do not
mutate. The `context.Context` parameter carries no semantics used by
this package and is omitted. -/

/-- The `Ops` interface over a backend state type `σ` (the `List`
operation is not needed by any claim and is omitted from the record's
uses, but kept for completeness of the contract). -/
structure Ops (σ : Type) where
  create : σ → String → Except GoError Unit × σ
  readAll : σ → String → Except GoError (List Bytes)
  read : σ → String → Except GoError Bytes
  put : σ → String → Bytes → Except GoError Unit × σ
  delete : σ → String → Except GoError Unit × σ

/-- The `map[string][][]byte` backing `InMemoryOps`. -/
def Store := String → Option (List Bytes)

/-- Map update (also models `delete` when `v = none`). -/
def Store.update (s : Store) (k : String) (v : Option (List Bytes)) : Store :=
  fun q => if q = k then v else s q

/-- The empty map produced by `NewInMemoryOps`. -/
def emptyStore : Store := fun _ => none

/-- `InMemoryOps.Create`: fails with `KeyError` when the key exists,
otherwise installs an empty history. -/
def memCreate (s : Store) (key : String) : Except GoError Unit × Store :=
  match s key with
  | some _ => (.error (.keyError ("key " ++ key ++ " already exists")), s)
  | none => (.ok (), s.update key (some []))

/-- `InMemoryOps.ReadAll`: the whole history, or `KeyNotFoundError`. -/
def memReadAll (s : Store) (key : String) : Except GoError (List Bytes) :=
  match s key with
  | none => .error (.keyNotFoundError ("key " ++ key ++ " not found"))
  | some data => .ok data

/-- `InMemoryOps.Read`: the last entry (`data[len(data)-1]`), with
`KeyNotFoundError` for an absent key and `EntryError` for an empty
history. -/
def memRead (s : Store) (key : String) : Except GoError Bytes :=
  match s key with
  | none => .error (.keyNotFoundError ("key " ++ key ++ " not found"))
  | some [] => .error (.entryError ("no entries found for key " ++ key))
  | some (d :: ds) => .ok ((d :: ds).getLast (List.cons_ne_nil d ds))

/-- `InMemoryOps.Put`: `KeyNotFoundError` for an absent key,
otherwise replaces the whole history with the single new entry
(`ops.store[key] = [][]byte{entry}`). -/
def memPut (s : Store) (key : String) (entry : Bytes) : Except GoError Unit × Store :=
  match s key with
  | none => (.error (.keyNotFoundError ("key " ++ key ++ " not found")), s)
  | some _ => (.ok (), s.update key (some [entry]))

/-- `InMemoryOps.Delete`: `KeyNotFoundError` for an absent key,
otherwise removes the key and its history. -/
def memDelete (s : Store) (key : String) : Except GoError Unit × Store :=
  match s key with
  | none => (.error (.keyNotFoundError ("key " ++ key ++ " not found")), s)
  | some _ => (.ok (), s.update key none)

/-- The in-memory adapter as an `Ops` instance. -/
def memOps : Ops Store where
  create := memCreate
  readAll := memReadAll
  read := memRead
  put := memPut
  delete := memDelete

/-! ## PostgreSQL adapter, create/read path (src/cryptor.go, `dbOps`)

The `FILES` table is a list of rows `(key, value, version)`; `value`
is `BYTEA` and nullable (`Option Bytes`, `none` = SQL `NULL`), which
`database/sql` scans into a nil `[]byte`. -/

/-- One row of the `FILES` table (the `SERIAL` id column is never
consulted by the queries modelled here). -/
structure DBRow where
  key : String
  value : Option Bytes
  version : Int
deriving DecidableEq, Repr

/-- Insertion sort by ascending `version`, modelling
`ORDER BY version ASC`. -/
def insertByVer (r : DBRow) : List DBRow → List DBRow
  | [] => [r]
  | x :: xs => if r.version ≤ x.version then r :: x :: xs else x :: insertByVer r xs

/-- Sort rows by ascending `version`. -/
def sortByVer : List DBRow → List DBRow
  | [] => []
  | r :: rs => insertByVer r (sortByVer rs)

/-- `dbOps.Create`: `QueryRow("SELECT key FROM FILES WHERE key = $1")`
scans the key of a matching row into `existingKey` (left `""` on
`ErrNoRows`); a non-empty `existingKey` is a `KeyError`; otherwise
`INSERT INTO FILES (key, value, version) VALUES ($1, NULL, 0)`. -/
def dbCreate (t : List DBRow) (key : String) : Except GoError Unit × List DBRow :=
  let existingKey := match t.find? (fun r => r.key = key) with
    | some r => r.key
    | none => ""
  if existingKey ≠ "" then
    (.error (.keyError ("key already exists: " ++ key)), t)
  else
    (.ok (), t ++ [{ key := key, value := none, version := 0 }])

/-- `dbOps.ReadAll`:
`SELECT value FROM FILES WHERE key = $1 ORDER BY version ASC`, every
returned row's value appended (a `NULL` value scans to a nil slice and
is appended like any other). No rows yield an empty result, not an
error. -/
def dbReadAll (t : List DBRow) (key : String) : Except GoError (List (Option Bytes)) :=
  .ok ((sortByVer (t.filter (fun r => r.key = key))).map (fun r => r.value))

/-- `dbOps.Read`:
`SELECT value FROM FILES WHERE key = $1 ORDER BY version DESC LIMIT 1`;
`ErrNoRows` becomes `KeyNotFoundError`, otherwise the scanned value
(possibly `NULL`) is returned with no error. -/
def dbRead (t : List DBRow) (key : String) : Except GoError (Option Bytes) :=
  match (sortByVer (t.filter (fun r => r.key = key))).getLast? with
  | none => .error (.keyNotFoundError ("key not found: " ++ key))
  | some r => .ok r.value

/-! ## Encryption decorator (src/cryptor.go, `CryptStore`) -/

/-- The decorator: a wrapped contract implementation plus the sealing
capability (`libcipher.Encryptor.Crypt(plaintext, associatedData)`)
and the opening capability
(`libcipher.Decryptor.Crypt(vault) -> (plaintext, associatedData)`). -/
structure CryptStore (σ : Type) where
  storeOps : Ops σ
  encryptor : Bytes → Bytes → Except GoError Bytes
  decryptor : Bytes → Except GoError (Bytes × Bytes)

/-- The open-and-validate step shared by `CryptStore.Read` and the
`CryptStore.ReadAll` loop body (cryptor.go lines 142-153 and 165-175):
decrypt, propagate a decryption failure unchanged, parse the embedded
timestamp with `time.Parse(tsFormat, ...)` propagating a parse
failure, and reject with `ValidationError` when the timestamp is
strictly after `time.Now().UTC()` (`now`). -/
def openCheck (dec : Bytes → Except GoError (Bytes × Bytes)) (now : GoTime)
    (vault : Bytes) : Except GoError Bytes :=
  match dec vault with
  | .error e => .error e
  | .ok pm =>
    match timeParse pm.2 with
    | none => .error (.timeParseError pm.2)
    | some ts =>
      if timeAfter ts now then .error (.validationError "failed to validate sealing")
      else .ok pm.1

/-- `CryptStore.Put`: format `time.Now().UTC()` (`now`) with
`tsFormat`, seal `(entry, ts)`; a sealing failure is reported as
`fmt.Errorf("%w: %w", DecryptionError("failed to encrypt entry"), err)`;
otherwise forward the vault to the wrapped `Put`, whose outcome is
propagated unchanged. -/
def CryptStore.Put (m : CryptStore σ) (now : GoTime) (s : σ) (key : String)
    (entry : Bytes) : Except GoError Unit × σ :=
  match m.encryptor entry (timeFormat now) with
  | .error e => (.error (.wrapped (.decryptionError "failed to encrypt entry") e), s)
  | .ok vault => m.storeOps.put s key vault

/-- `CryptStore.Read`: forward `Read`, then open and freshness-check
the returned vault. -/
def CryptStore.Read (m : CryptStore σ) (now : GoTime) (s : σ) (key : String) :
    Except GoError Bytes :=
  match m.storeOps.read s key with
  | .error e => .error e
  | .ok vault => openCheck m.decryptor now vault

/-- The loop of `CryptStore.ReadAll`: envelope `i` is opened and
freshness-checked against its own `time.Now().UTC()` reading
(`clock i`); the first failure aborts the whole call with that error. -/
def readAllLoop (dec : Bytes → Except GoError (Bytes × Bytes)) (clock : Nat → GoTime) :
    Nat → List Bytes → Except GoError (List Bytes)
  | _, [] => .ok []
  | i, v :: vs =>
    match openCheck dec (clock i) v with
    | .error e => .error e
    | .ok res =>
      match readAllLoop dec clock (i + 1) vs with
      | .error e => .error e
      | .ok rest => .ok (res :: rest)

/-- `CryptStore.ReadAll`: forward `ReadAll`, then open and
freshness-check every returned vault in order. -/
def CryptStore.ReadAll (m : CryptStore σ) (clock : Nat → GoTime) (s : σ)
    (key : String) : Except GoError (List Bytes) :=
  match m.storeOps.readAll s key with
  | .error e => .error e
  | .ok vaults => readAllLoop m.decryptor clock 0 vaults

/-- `CryptStore.Create`: pass-through. -/
def CryptStore.Create (m : CryptStore σ) (s : σ) (key : String) :
    Except GoError Unit × σ :=
  m.storeOps.create s key

/-- `CryptStore.Delete`: pass-through. -/
def CryptStore.Delete (m : CryptStore σ) (s : σ) (key : String) :
    Except GoError Unit × σ :=
  m.storeOps.delete s key

/-- A reported cryptographic failure in the decorator's convention: a
`DecryptionError`, bare or at the head of a `fmt.Errorf("%w: %w", ...)`
wrap (the shape `CryptStore.Put` produces). -/
def isDecryptionErr : GoError → Bool
  | .decryptionError _ => true
  | .wrapped (.decryptionError _) _ => true
  | _ => false

/-! ## Lemmas: digit rendering and parsing -/

lemma isDigitB_digitByte (d : Nat) (h : d < 10) : isDigitB (digitByte d) = true := by
  simp only [isDigitB, digitByte, Bool.and_eq_true, decide_eq_true_eq]
  omega

lemma natDigits_length (k n : Nat) : (natDigits k n).length = k := by
  induction k generalizing n with
  | zero => simp [natDigits]
  | succ k ih => simp [natDigits, ih]

lemma natDigits_all_digits (k : Nat) :
    ∀ n, n < 10 ^ k → ∀ b ∈ natDigits k n, isDigitB b = true := by
  induction k with
  | zero => intro n _ b hb; simp [natDigits] at hb
  | succ k ih =>
    intro n hn b hb
    have hp : 0 < (10 : Nat) ^ k := pow_pos (by norm_num) k
    simp only [natDigits, List.mem_cons] at hb
    rcases hb with hb | hb
    · subst hb
      apply isDigitB_digitByte
      rw [Nat.div_lt_iff_lt_mul hp]
      calc n < 10 ^ (k + 1) := hn
        _ = 10 * 10 ^ k := by ring
    · exact ih (n % 10 ^ k) (Nat.mod_lt _ hp) b hb

lemma readNat_natDigits (k : Nat) :
    ∀ (acc n : Nat), n < 10 ^ k → ∀ rest : Bytes,
      readNat k acc (natDigits k n ++ rest) = some (acc * 10 ^ k + n, rest) := by
  induction k with
  | zero =>
    intro acc n h rest
    simp only [natDigits, List.nil_append, readNat, pow_zero, Option.some.injEq,
      Prod.mk.injEq, and_true]
    omega
  | succ k ih =>
    intro acc n h rest
    have hp : 0 < (10 : Nat) ^ k := pow_pos (by norm_num) k
    have hq : n / 10 ^ k < 10 := by
      rw [Nat.div_lt_iff_lt_mul hp]
      calc n < 10 ^ (k + 1) := h
        _ = 10 * 10 ^ k := by ring
    simp only [natDigits, List.cons_append, readNat, isDigitB_digitByte _ hq, if_true,
      List.append_eq]
    have hsub : digitByte (n / 10 ^ k) - 48 = n / 10 ^ k := by
      simp [digitByte]
    rw [hsub, ih (acc * 10 + n / 10 ^ k) (n % 10 ^ k) (Nat.mod_lt _ hp) rest]
    have hdm := Nat.div_add_mod n (10 ^ k)
    have hval : (acc * 10 + n / 10 ^ k) * 10 ^ k + n % 10 ^ k =
        acc * (10 ^ k * 10) + (10 ^ k * (n / 10 ^ k) + n % 10 ^ k) := by ring
    rw [hval, hdm, ← pow_succ]

lemma readNat0 (k n : Nat) (h : n < 10 ^ k) (rest : Bytes) :
    readNat k 0 (natDigits k n ++ rest) = some (n, rest) := by
  simpa using readNat_natDigits k 0 n h rest

lemma expectByte_cons (c : Nat) (bs : Bytes) : expectByte c (c :: bs) = some bs := by
  simp [expectByte]

lemma digitsVal_aux (k : Nat) :
    ∀ (acc n : Nat), n < 10 ^ k →
      (natDigits k n).foldl (fun a b => a * 10 + (b - 48)) acc = acc * 10 ^ k + n := by
  induction k with
  | zero =>
    intro acc n h
    simp only [natDigits, List.foldl_nil, pow_zero]
    omega
  | succ k ih =>
    intro acc n h
    have hp : 0 < (10 : Nat) ^ k := pow_pos (by norm_num) k
    simp only [natDigits, List.foldl_cons]
    have hsub : digitByte (n / 10 ^ k) - 48 = n / 10 ^ k := by
      simp [digitByte]
    rw [hsub, ih (acc * 10 + n / 10 ^ k) (n % 10 ^ k) (Nat.mod_lt _ hp)]
    have hdm := Nat.div_add_mod n (10 ^ k)
    have hval : (acc * 10 + n / 10 ^ k) * 10 ^ k + n % 10 ^ k =
        acc * (10 ^ k * 10) + (10 ^ k * (n / 10 ^ k) + n % 10 ^ k) := by ring
    rw [hval, hdm, ← pow_succ]

lemma digitsVal_natDigits (k n : Nat) (h : n < 10 ^ k) :
    digitsVal (natDigits k n) = n := by
  simpa [digitsVal] using digitsVal_aux k 0 n h

lemma spanDigits_append (ds : Bytes) (rest : Bytes)
    (hds : ∀ b ∈ ds, isDigitB b = true)
    (hrest : ∀ b, rest.head? = some b → isDigitB b = false) :
    spanDigits (ds ++ rest) = (ds, rest) := by
  induction ds with
  | nil =>
    cases rest with
    | nil => simp [spanDigits]
    | cons b bs => simp [spanDigits, hrest b rfl]
  | cons d ds ih =>
    have hd := hds d (List.mem_cons_self d ds)
    simp only [List.cons_append, spanDigits, hd, if_true, List.append_eq]
    rw [ih (fun b hb => hds b (List.mem_cons_of_mem _ hb))]

lemma stripZeros_spec (k : Nat) :
    ∀ n, (stripZeros n k).1 * 10 ^ (k - (stripZeros n k).2) = n ∧
      (stripZeros n k).2 ≤ k ∧
      (n < 10 ^ k → (stripZeros n k).1 < 10 ^ (stripZeros n k).2) := by
  induction k with
  | zero =>
    intro n
    refine ⟨?_, ?_, ?_⟩ <;> simp [stripZeros]
  | succ k ih =>
    intro n
    by_cases hn : n % 10 = 0
    · obtain ⟨v1, v2, v3⟩ := ih (n / 10)
      simp only [stripZeros, hn, if_true]
      refine ⟨?_, by omega, ?_⟩
      · have hstep : k + 1 - (stripZeros (n / 10) k).2 =
            (k - (stripZeros (n / 10) k).2) + 1 := by omega
        rw [hstep, pow_succ, ← Nat.mul_assoc, v1]
        exact Nat.div_mul_cancel (Nat.dvd_of_mod_eq_zero hn)
      · intro h
        apply v3
        rw [Nat.div_lt_iff_lt_mul (by norm_num : (0 : Nat) < 10)]
        calc n < 10 ^ (k + 1) := h
          _ = 10 ^ k * 10 := by ring
    · simp only [stripZeros, hn, if_false]
      exact ⟨by simp, le_refl _, fun h => h⟩

lemma parseFrac_fracBytes (n : Nat) (h : n < 10 ^ 9) (rest : Bytes) :
    parseFrac (fracBytes n ++ 32 :: rest) = some (n, 32 :: rest) := by
  by_cases hn : n = 0
  · subst hn
    simp [fracBytes, parseFrac]
  · obtain ⟨v1, v2, v3⟩ := stripZeros_spec 9 n
    have hm : (stripZeros n 9).1 < 10 ^ (stripZeros n 9).2 := v3 h
    have hj0 : (stripZeros n 9).2 ≠ 0 := by
      intro hz
      rw [hz, pow_zero] at hm
      rw [hz, Nat.sub_zero] at v1
      omega
    simp only [fracBytes, hn, if_false, List.cons_append, parseFrac, if_true]
    rw [spanDigits_append (natDigits (stripZeros n 9).2 (stripZeros n 9).1) (32 :: rest)
      (natDigits_all_digits _ _ hm) (by intro b hb; simp at hb; subst hb; rfl)]
    simp only [natDigits_length]
    have hcond : ¬ ((stripZeros n 9).2 = 0 ∨ 9 < (stripZeros n 9).2) := by omega
    rw [if_neg hcond, digitsVal_natDigits _ _ hm, v1]

lemma validCheck_true (t : GoTime) (h : ValidTime t) : validCheck t = true := by
  obtain ⟨h1, h2, h3, h4, h5, h6, h7, h8, h9⟩ := h
  simp only [validCheck, Bool.and_eq_true, decide_eq_true_eq]
  omega

/-- Round-trip of the freshness timestamp through the `tsFormat`
layout: parsing the formatted text of any real UTC instant recovers
exactly that instant. -/
lemma timeParse_timeFormat (t : GoTime) (h : ValidTime t) :
    timeParse (timeFormat t) = some t := by
  obtain ⟨h1, h2, h3, h4, h5, h6, h7, h8, h9⟩ := h
  have hy : t.year < 10 ^ 4 := by norm_num; omega
  have hmo : t.month < 10 ^ 2 := by norm_num; omega
  have hd : t.day < 10 ^ 2 := by
    have : daysInMonth t.year t.month ≤ 31 := by
      simp only [daysInMonth]
      split <;> try split
      all_goals omega
    norm_num; omega
  have hh : t.hour < 10 ^ 2 := by norm_num; omega
  have hmi : t.minute < 10 ^ 2 := by norm_num; omega
  have hs : t.sec < 10 ^ 2 := by norm_num; omega
  have hns : t.nsec < 10 ^ 9 := by norm_num; omega
  have hvc : validCheck t = true := validCheck_true t ⟨h1, h2, h3, h4, h5, h6, h7, h8, h9⟩
  simp only [timeFormat, tsSuffix, timeParse, List.append_assoc, List.cons_append,
    readNat0 4 t.year hy, Option.bind, expectByte_cons, readNat0 2 t.month hmo,
    readNat0 2 t.day hd, readNat0 2 t.hour hh, readNat0 2 t.minute hmi,
    readNat0 2 t.sec hs, parseFrac_fracBytes t.nsec hns]
  simp [hvc]

/-! ## Lemmas: store map and the ReadAll loop -/

lemma Store.update_self (s : Store) (k : String) (v : Option (List Bytes)) :
    s.update k v k = v := by
  simp [Store.update]

lemma readAllLoop_ok_ex (dec : Bytes → Except GoError (Bytes × Bytes))
    (clock : Nat → GoTime) :
    ∀ (vs : List Bytes) (i : Nat),
      (∀ j (hj : j < vs.length), ∃ r, openCheck dec (clock (i + j)) (vs.get ⟨j, hj⟩) = .ok r) →
      ∃ out : List Bytes, readAllLoop dec clock i vs = .ok out ∧ out.length = vs.length ∧
        ∀ j (hj : j < vs.length) (hj2 : j < out.length),
          openCheck dec (clock (i + j)) (vs.get ⟨j, hj⟩) = .ok (out.get ⟨j, hj2⟩) := by
  intro vs
  induction vs with
  | nil =>
    intro i _
    exact ⟨[], rfl, rfl, fun j hj => absurd hj (by simp)⟩
  | cons v vs ih =>
    intro i h
    obtain ⟨r0, hr0⟩ := h 0 (by simp)
    rw [Nat.add_zero] at hr0
    simp only [List.get] at hr0
    have hshift : ∀ j (hj : j < vs.length),
        ∃ r, openCheck dec (clock (i + 1 + j)) (vs.get ⟨j, hj⟩) = .ok r := by
      intro j hj
      obtain ⟨r, hr⟩ := h (j + 1) (by simpa using Nat.succ_lt_succ hj)
      refine ⟨r, ?_⟩
      have hidx : i + (j + 1) = i + 1 + j := by omega
      rw [hidx] at hr
      exact hr
    obtain ⟨out, hout, hlen, hget⟩ := ih (i + 1) hshift
    refine ⟨r0 :: out, ?_, by simpa using hlen, ?_⟩
    · simp only [readAllLoop, hr0, hout]
    · intro j hj hj2
      cases j with
      | zero => simpa using hr0
      | succ j =>
        have hidx : i + (j + 1) = i + 1 + j := by omega
        rw [hidx]
        exact hget j (by simpa using Nat.lt_of_succ_lt_succ hj)
          (by simpa using Nat.lt_of_succ_lt_succ hj2)

lemma readAllLoop_err (dec : Bytes → Except GoError (Bytes × Bytes))
    (clock : Nat → GoTime) :
    ∀ (vs : List Bytes) (i j : Nat) (hj : j < vs.length) (e : GoError),
      (∀ l (hl : l < j), ∃ r,
        openCheck dec (clock (i + l)) (vs.get ⟨l, Nat.lt_trans hl hj⟩) = .ok r) →
      openCheck dec (clock (i + j)) (vs.get ⟨j, hj⟩) = .error e →
      readAllLoop dec clock i vs = .error e := by
  intro vs
  induction vs with
  | nil =>
    intro i j hj
    exact absurd hj (by simp)
  | cons v vs ih =>
    intro i j hj e hbefore herr
    cases j with
    | zero =>
      rw [Nat.add_zero] at herr
      simp only [readAllLoop, List.get] at herr ⊢
      rw [herr]
    | succ j =>
      obtain ⟨r0, hr0⟩ := hbefore 0 (Nat.succ_pos j)
      rw [Nat.add_zero] at hr0
      have hj2 : j < vs.length := Nat.lt_of_succ_lt_succ hj
      have hbefore2 : ∀ l (hl : l < j), ∃ r,
          openCheck dec (clock (i + 1 + l)) (vs.get ⟨l, Nat.lt_trans hl hj2⟩) = .ok r := by
        intro l hl
        obtain ⟨r, hr⟩ := hbefore (l + 1) (Nat.succ_lt_succ hl)
        refine ⟨r, ?_⟩
        have hidx : i + (l + 1) = i + 1 + l := by omega
        rw [hidx] at hr
        exact hr
      have herr2 : openCheck dec (clock (i + 1 + j)) (vs.get ⟨j, hj2⟩) = .error e := by
        have hidx : i + (j + 1) = i + 1 + j := by omega
        rw [hidx] at herr
        exact herr
      have := ih (i + 1) j hj2 e hbefore2 herr2
      simp only [readAllLoop, List.get] at hr0 ⊢
      rw [hr0, this]

/-! ## Sample values used by concrete instantiations -/

/-- A real UTC instant with a full-precision fractional second. -/
def sampleTime : GoTime :=
  { year := 2024, month := 5, day := 17, hour := 12, minute := 30, sec := 45,
    nsec := 123456789 }

/-- A real UTC instant in the past of `sampleTime`. -/
def pastTime : GoTime :=
  { year := 2020, month := 1, day := 1, hour := 0, minute := 0, sec := 0, nsec := 0 }

/-- A real UTC instant in the future of `sampleTime`. -/
def futureTime : GoTime :=
  { year := 2030, month := 1, day := 1, hour := 0, minute := 0, sec := 0, nsec := 0 }

/-! ## Claim theorems -/

/-- C2: after a successful `Create(k)` of a fresh key, the in-memory
adapter yields an empty `ReadAll(k)` and an `EntryError` from
`Read(k)` exactly as the contract states, but the PostgreSQL adapter
deviates at the same input: its `Create` inserts a `NULL` placeholder
row at version 0, so `ReadAll(k)` returns the one-element sequence
`[NULL]` and `Read(k)` succeeds returning `NULL` instead of failing
with `EntryError`. -/
theorem create_then_read_adapters :
    (memCreate emptyStore "k").1 = .ok () ∧
    memReadAll (memCreate emptyStore "k").2 "k" = .ok [] ∧
    memRead (memCreate emptyStore "k").2 "k" =
      .error (.entryError "no entries found for key k") ∧
    (dbCreate [] "k").1 = .ok () ∧
    dbReadAll (dbCreate [] "k").2 "k" = .ok [none] ∧
    dbRead (dbCreate [] "k").2 "k" = .ok none := by
  refine ⟨rfl, rfl, rfl, rfl, rfl, rfl⟩

/-- C6: `NewError` maps the five named kinds to codes 1..5 with the
kind's own rendered message, every other error to code 0, and
`TranslateToError` applied to the code `NewError` assigned (with any
message) reconstructs an error of the same kind. -/
theorem newError_translate_total_stable :
    ((∀ s, NewError (.locationError s) = { code := 1, message := "libstore: " ++ s }) ∧
     (∀ s, NewError (.keyError s) = { code := 2, message := "libstore: " ++ s }) ∧
     (∀ s, NewError (.entryError s) = { code := 3, message := "libstore: " ++ s }) ∧
     (∀ s, NewError (.opsInternalError s) = { code := 4, message := "libstore: " ++ s }) ∧
     (∀ s, NewError (.keyNotFoundError s) = { code := 5, message := "libstore: " ++ s })) ∧
    (∀ e, isNamedKind e = false →
      NewError e = { code := 0, message := "unknown error" }) ∧
    ((∀ s msg, TranslateToError (NewError (.locationError s)).code msg = .locationError msg) ∧
     (∀ s msg, TranslateToError (NewError (.keyError s)).code msg = .keyError msg) ∧
     (∀ s msg, TranslateToError (NewError (.entryError s)).code msg = .entryError msg) ∧
     (∀ s msg, TranslateToError (NewError (.opsInternalError s)).code msg =
       .opsInternalError msg) ∧
     (∀ s msg, TranslateToError (NewError (.keyNotFoundError s)).code msg =
       .keyNotFoundError msg)) := by
  refine ⟨⟨fun s => rfl, fun s => rfl, fun s => rfl, fun s => rfl, fun s => rfl⟩,
    ?_,
    ⟨fun s msg => rfl, fun s msg => rfl, fun s msg => rfl, fun s msg => rfl,
     fun s msg => rfl⟩⟩
  intro e he
  cases e <;> first
    | rfl
    | simp [isNamedKind] at he

/-- Witness for C6 at a concrete unrecognized error value. -/
theorem newError_translate_total_stable_witness :
    NewError (.validationError "stale") = { code := 0, message := "unknown error" } :=
  newError_translate_total_stable.2.1 (.validationError "stale") rfl

/-- C8: creating the same fresh key twice on the in-memory adapter:
the first call succeeds and installs the empty history, the second
fails with a `KeyError` and returns the store completely unchanged. -/
theorem create_twice_keyError (s : Store) (key : String) (h : s key = none) :
    (memCreate s key).1 = .ok () ∧
    (memCreate s key).2 key = some [] ∧
    (memCreate (memCreate s key).2 key).1 =
      .error (.keyError ("key " ++ key ++ " already exists")) ∧
    (memCreate (memCreate s key).2 key).2 = (memCreate s key).2 := by
  simp [memCreate, h, Store.update_self]

/-- Witness for C8 on the empty store. -/
theorem create_twice_keyError_witness :
    (memCreate emptyStore "k").1 = .ok () ∧
    (memCreate emptyStore "k").2 "k" = some [] ∧
    (memCreate (memCreate emptyStore "k").2 "k").1 =
      .error (.keyError "key k already exists") ∧
    (memCreate (memCreate emptyStore "k").2 "k").2 = (memCreate emptyStore "k").2 :=
  create_twice_keyError emptyStore "k" rfl

/-- Invariant of the in-memory adapter: every present key's history
has at most one entry. -/
def MemInv (s : Store) : Prop :=
  ∀ k h, s k = some h → h.length ≤ 1

/-- C9: the in-memory adapter's histories always have length 0 or 1:
the empty store satisfies the invariant, `Create`, `Put` and `Delete`
preserve it, `Create` installs the empty history, a successful `Put`
replaces the whole history with exactly the one new entry, and under
the invariant `ReadAll` never returns more than one entry. -/
theorem memOps_single_slot :
    MemInv emptyStore ∧
    (∀ s key, MemInv s → MemInv (memCreate s key).2) ∧
    (∀ s key entry, MemInv s → MemInv (memPut s key entry).2) ∧
    (∀ s key, MemInv s → MemInv (memDelete s key).2) ∧
    (∀ s key, s key = none → (memCreate s key).2 key = some []) ∧
    (∀ s key entry hist, s key = some hist → (memPut s key entry).2 key = some [entry]) ∧
    (∀ s key d, MemInv s → memReadAll s key = .ok d → d.length ≤ 1) := by
  refine ⟨?_, ?_, ?_, ?_, ?_, ?_, ?_⟩
  · intro k h hk
    simp [emptyStore] at hk
  · intro s key hinv k h hk
    rcases hs : s key with _ | hist
    · simp only [memCreate, hs] at hk
      by_cases hkk : k = key
      · subst hkk
        rw [Store.update_self] at hk
        cases hk
        simp
      · rw [Store.update, if_neg hkk] at hk
        exact hinv k h hk
    · simp only [memCreate, hs] at hk
      exact hinv k h hk
  · intro s key entry hinv k h hk
    rcases hs : s key with _ | hist
    · simp only [memPut, hs] at hk
      exact hinv k h hk
    · simp only [memPut, hs] at hk
      by_cases hkk : k = key
      · subst hkk
        rw [Store.update_self] at hk
        cases hk
        simp
      · rw [Store.update, if_neg hkk] at hk
        exact hinv k h hk
  · intro s key hinv k h hk
    rcases hs : s key with _ | hist
    · simp only [memDelete, hs] at hk
      exact hinv k h hk
    · simp only [memDelete, hs] at hk
      by_cases hkk : k = key
      · subst hkk
        rw [Store.update_self] at hk
        cases hk
      · rw [Store.update, if_neg hkk] at hk
        exact hinv k h hk
  · intro s key h
    simp [memCreate, h, Store.update_self]
  · intro s key entry hist h
    simp [memPut, h, Store.update_self]
  · intro s key d hinv hd
    rcases hs : s key with _ | hist
    · simp [memReadAll, hs] at hd
    · simp only [memReadAll, hs] at hd
      injection hd with hde
      subst hde
      exact hinv key hist hs

/-- Witness for C9: a `Put` over an existing one-slot history leaves
exactly the single new entry. -/
theorem memOps_single_slot_witness :
    (memPut (memCreate emptyStore "k").2 "k" [5]).2 "k" = some [[5]] :=
  memOps_single_slot.2.2.2.2.2.1 (memCreate emptyStore "k").2 "k" [5] [] rfl

/-- C10: every error value outside the five named kinds — including
the decorator's `ValidationError` and `DecryptionError` and every
wrapped error — is translated by `NewError` to code 0 with the fixed
message "unknown error", discarding the original message. -/
theorem newError_unknown_discards_message :
    (∀ s, NewError (.validationError s) = { code := 0, message := "unknown error" }) ∧
    (∀ s, NewError (.decryptionError s) = { code := 0, message := "unknown error" }) ∧
    (∀ a b, NewError (.wrapped a b) = { code := 0, message := "unknown error" }) ∧
    (∀ e, isNamedKind e = false →
      NewError e = { code := 0, message := "unknown error" }) := by
  refine ⟨fun s => rfl, fun s => rfl, fun a b => rfl, ?_⟩
  intro e he
  cases e <;> first
    | rfl
    | simp [isNamedKind] at he

/-- Witness for C10 at a concrete wrapped error with a descriptive
message. -/
theorem newError_unknown_discards_message_witness :
    NewError (.wrapped (.decryptionError "failed to encrypt entry")
      (.external "cipher: short key")) = { code := 0, message := "unknown error" } :=
  newError_unknown_discards_message.2.2.2
    (.wrapped (.decryptionError "failed to encrypt entry") (.external "cipher: short key")) rfl

/-! ## Concrete decorator instances -/

/-- A sealing capability that never fails (identity payload). -/
def anyEnc : Bytes → Bytes → Except GoError Bytes := fun entry _ => .ok entry

/-- An opening capability that always fails, as a real authenticated
decryption does on corruption or tampering. -/
def failingDec : Bytes → Except GoError (Bytes × Bytes) :=
  fun _ => .error (.external "cipher: message authentication failed")

/-- A store holding one vault under key "k". -/
def storeWithVault : Store :=
  fun k => if k = "k" then some [[1, 2, 3]] else none

/-- Decorator whose opening capability always fails. -/
def cryptFailing : CryptStore Store :=
  { storeOps := memOps, encryptor := anyEnc, decryptor := failingDec }

/-- C3 counterexample: when the opening capability fails,
`CryptStore.Read` returns the underlying cipher error verbatim — the
reported error is not a `DecryptionError`, contradicting the claim
that every cryptographic failure is reported as `DecryptionError`. -/
theorem read_open_failure_not_decryptionError :
    CryptStore.Read cryptFailing pastTime storeWithVault "k" =
      .error (.external "cipher: message authentication failed") ∧
    isDecryptionErr (.external "cipher: message authentication failed") = false :=
  ⟨rfl, rfl⟩

/-- C3 (amended): `CryptStore.Put` reports a sealing failure as a
`DecryptionError` wrapping the underlying cause, while
`CryptStore.Read` and `CryptStore.ReadAll` propagate a failure of the
opening capability unchanged (the raw cipher error, not wrapped in
`DecryptionError`). -/
theorem crypt_errors_amended :
    (∀ (σ : Type) (m : CryptStore σ) (now : GoTime) (s : σ) (key : String)
        (entry : Bytes) (e : GoError),
        m.encryptor entry (timeFormat now) = .error e →
        (m.Put now s key entry).1 =
          .error (.wrapped (.decryptionError "failed to encrypt entry") e) ∧
        isDecryptionErr (.wrapped (.decryptionError "failed to encrypt entry") e) = true) ∧
    (∀ (σ : Type) (m : CryptStore σ) (now : GoTime) (s : σ) (key : String)
        (vault : Bytes) (e : GoError),
        m.storeOps.read s key = .ok vault →
        m.decryptor vault = .error e →
        m.Read now s key = .error e) ∧
    (∀ (σ : Type) (m : CryptStore σ) (clock : Nat → GoTime) (s : σ) (key : String)
        (vaults : List Bytes) (j : Nat) (hj : j < vaults.length) (e : GoError),
        m.storeOps.readAll s key = .ok vaults →
        (∀ l (hl : l < j), ∃ r,
          openCheck m.decryptor (clock l) (vaults.get ⟨l, Nat.lt_trans hl hj⟩) = .ok r) →
        m.decryptor (vaults.get ⟨j, hj⟩) = .error e →
        m.ReadAll clock s key = .error e) := by
  refine ⟨?_, ?_, ?_⟩
  · intro σ m now s key entry e henc
    simp [CryptStore.Put, henc, isDecryptionErr]
  · intro σ m now s key vault e hfetch hdec
    simp [CryptStore.Read, hfetch, openCheck, hdec]
  · intro σ m clock s key vaults j hj e hfetch hbefore hdec
    have herr : openCheck m.decryptor (clock (0 + j)) (vaults.get ⟨j, hj⟩) = .error e := by
      rw [Nat.zero_add]
      simp only [openCheck, hdec]
    have hb : ∀ l (hl : l < j), ∃ r,
        openCheck m.decryptor (clock (0 + l)) (vaults.get ⟨l, Nat.lt_trans hl hj⟩) = .ok r := by
      intro l hl
      rw [Nat.zero_add]
      exact hbefore l hl
    have := readAllLoop_err m.decryptor clock vaults 0 j hj e hb herr
    simp [CryptStore.ReadAll, hfetch, this]

/-- A sealing capability that always fails. -/
def failingEnc : Bytes → Bytes → Except GoError Bytes :=
  fun _ _ => .error (.external "cipher: sealing failed")

/-- Decorator whose sealing and opening capabilities both fail. -/
def cryptSealFail : CryptStore Store :=
  { storeOps := memOps, encryptor := failingEnc, decryptor := failingDec }

/-- Witness for the amended C3 at concrete failing capabilities. -/
theorem crypt_errors_amended_witness :
    (CryptStore.Put cryptSealFail pastTime storeWithVault "k" [7]).1 =
      .error (.wrapped (.decryptionError "failed to encrypt entry")
        (.external "cipher: sealing failed")) ∧
    CryptStore.Read cryptSealFail pastTime storeWithVault "k" =
      .error (.external "cipher: message authentication failed") :=
  ⟨(crypt_errors_amended.1 Store cryptSealFail pastTime storeWithVault "k" [7]
      (.external "cipher: sealing failed") rfl).1,
   crypt_errors_amended.2.1 Store cryptSealFail pastTime storeWithVault "k" [1, 2, 3]
      (.external "cipher: message authentication failed") rfl rfl⟩

/-- C7 counterexample: the `tsFormat` layout is not fixed-precision —
two real UTC instants format to texts of different lengths, because
the `.999999999` fragment drops trailing zeros (and the whole fraction
when it is zero). -/
theorem tsFormat_not_fixed_precision :
    ValidTime ⟨2024, 5, 17, 12, 30, 45, 0⟩ ∧
    ValidTime ⟨2024, 5, 17, 12, 30, 45, 123456789⟩ ∧
    (timeFormat ⟨2024, 5, 17, 12, 30, 45, 0⟩).length ≠
      (timeFormat ⟨2024, 5, 17, 12, 30, 45, 123456789⟩).length := by
  refine ⟨by decide, by decide, by decide⟩

/-- C7 (amended): the `tsFormat` text of a UTC instant is
variable-precision (trailing fractional zeros elided), but parsing the
formatted text with the same layout yields back exactly the instant. -/
theorem tsFormat_roundtrip_exact (t : GoTime) (h : ValidTime t) :
    timeParse (timeFormat t) = some t :=
  timeParse_timeFormat t h

/-- Witness for the amended C7 at a full-precision instant. -/
theorem tsFormat_roundtrip_exact_witness :
    ValidTime sampleTime ∧ timeParse (timeFormat sampleTime) = some sampleTime :=
  ⟨by decide, tsFormat_roundtrip_exact sampleTime (by decide)⟩

/-- C4: under the hypotheses that the opening capability exactly
inverts the sealing capability and that the clock is monotone between
seal time and open time, `Put` then `Read` through the decorator over
the in-memory backend returns exactly the original plaintext, and the
timestamp embedded at seal time parses back to an instant no earlier
than the seal-time clock reading and no later than the open-time
clock reading. -/
theorem put_read_roundtrip (enc : Bytes → Bytes → Except GoError Bytes)
    (dec : Bytes → Except GoError (Bytes × Bytes))
    (hinv : ∀ p a, ∃ v, enc p a = .ok v ∧ dec v = .ok (p, a))
    (M : CryptStore Store)
    (hM : M = { storeOps := memOps, encryptor := enc, decryptor := dec })
    (nowPut nowRead : GoTime) (hvalid : ValidTime nowPut)
    (hmono : timeKey nowPut ≤ timeKey nowRead)
    (s : Store) (key : String) (hist : List Bytes) (hkey : s key = some hist)
    (p : Bytes) :
    (M.Put nowPut s key p).1 = .ok () ∧
    M.Read nowRead (M.Put nowPut s key p).2 key = .ok p ∧
    ∃ ts, timeParse (timeFormat nowPut) = some ts ∧
      timeAfter nowPut ts = false ∧ timeAfter ts nowRead = false := by
  subst hM
  obtain ⟨v, henc, hdec⟩ := hinv p (timeFormat nowPut)
  have hput : CryptStore.Put
      { storeOps := memOps, encryptor := enc, decryptor := dec } nowPut s key p =
      (.ok (), s.update key (some [v])) := by
    simp [CryptStore.Put, henc, memOps, memPut, hkey]
  have hafter : timeAfter nowPut nowRead = false := by
    simp only [timeAfter, decide_eq_false_iff_not]
    omega
  refine ⟨by rw [hput], ?_, nowPut, timeParse_timeFormat nowPut hvalid, ?_, hafter⟩
  · rw [hput]
    simp only [CryptStore.Read, memOps, memRead, Store.update_self,
      List.getLast_singleton, openCheck, hdec, timeParse_timeFormat nowPut hvalid,
      hafter, Bool.false_eq_true, if_false]
  · simp only [timeAfter, decide_eq_false_iff_not]
    omega

/-- A sealing capability that concatenates the plaintext behind its
length, followed by the associated data; its exact inverse. -/
def pairEnc : Bytes → Bytes → Except GoError Bytes :=
  fun p a => .ok (p.length :: (p ++ a))

/-- The exact inverse of `pairEnc`. -/
def pairDec : Bytes → Except GoError (Bytes × Bytes)
  | [] => .error (.external "cipher: empty vault")
  | n :: rest => .ok (rest.take n, rest.drop n)

/-- Decorator over the in-memory backend with the invertible pair of
capabilities. -/
def cryptPair : CryptStore Store :=
  { storeOps := memOps, encryptor := pairEnc, decryptor := pairDec }

/-- Witness for C4 with invertible concrete capabilities, a created
key, and equal seal/open clock readings. -/
theorem put_read_roundtrip_witness :
    (CryptStore.Put cryptPair sampleTime (memCreate emptyStore "k").2 "k" [7, 8]).1 =
      .ok () ∧
    CryptStore.Read cryptPair sampleTime
      (CryptStore.Put cryptPair sampleTime (memCreate emptyStore "k").2 "k" [7, 8]).2 "k" =
      .ok [7, 8] := by
  have h := put_read_roundtrip pairEnc pairDec
    (fun p a => ⟨p.length :: (p ++ a), rfl, by
      simp [pairDec, List.take_left, List.drop_left]⟩)
    cryptPair rfl sampleTime sampleTime (by decide) (le_refl _)
    (memCreate emptyStore "k").2 "k" [] rfl [7, 8]
  exact ⟨h.1, h.2.1⟩

/-- C5: when the wrapped `ReadAll` returns a sequence of envelopes,
the decorator opens and freshness-checks them in the same order: if
every envelope opens and is fresh the result has the same length with
element `i` the plaintext of envelope `i`; otherwise the call fails
with the error of the first envelope that fails to open, to parse its
timestamp, or to pass freshness — no partial result is returned. -/
theorem readAll_order_first_failure :
    (∀ (σ : Type) (m : CryptStore σ) (clock : Nat → GoTime) (s : σ) (key : String)
        (vaults : List Bytes),
        m.storeOps.readAll s key = .ok vaults →
        (∀ j (hj : j < vaults.length), ∃ r,
          openCheck m.decryptor (clock j) (vaults.get ⟨j, hj⟩) = .ok r) →
        ∃ out, m.ReadAll clock s key = .ok out ∧ out.length = vaults.length ∧
          ∀ j (hj : j < vaults.length) (hj2 : j < out.length),
            openCheck m.decryptor (clock j) (vaults.get ⟨j, hj⟩) =
              .ok (out.get ⟨j, hj2⟩)) ∧
    (∀ (σ : Type) (m : CryptStore σ) (clock : Nat → GoTime) (s : σ) (key : String)
        (vaults : List Bytes) (j : Nat) (hj : j < vaults.length) (e : GoError),
        m.storeOps.readAll s key = .ok vaults →
        (∀ l (hl : l < j), ∃ r,
          openCheck m.decryptor (clock l) (vaults.get ⟨l, Nat.lt_trans hl hj⟩) = .ok r) →
        openCheck m.decryptor (clock j) (vaults.get ⟨j, hj⟩) = .error e →
        m.ReadAll clock s key = .error e) := by
  constructor
  · intro σ m clock s key vaults hfetch hall
    have hall0 : ∀ j (hjj : j < vaults.length), ∃ r,
        openCheck m.decryptor (clock (0 + j)) (vaults.get ⟨j, hjj⟩) = .ok r := by
      intro j hjj
      rw [Nat.zero_add]
      exact hall j hjj
    obtain ⟨out, hout, hlen, hget⟩ := readAllLoop_ok_ex m.decryptor clock vaults 0 hall0
    refine ⟨out, ?_, hlen, ?_⟩
    · simp [CryptStore.ReadAll, hfetch, hout]
    · intro j hjj hj2
      have := hget j hjj hj2
      rw [Nat.zero_add] at this
      exact this
  · intro σ m clock s key vaults j hj e hfetch hbefore herr
    have hb0 : ∀ l (hl : l < j), ∃ r,
        openCheck m.decryptor (clock (0 + l)) (vaults.get ⟨l, Nat.lt_trans hl hj⟩) = .ok r := by
      intro l hl
      rw [Nat.zero_add]
      exact hbefore l hl
    have herr0 : openCheck m.decryptor (clock (0 + j)) (vaults.get ⟨j, hj⟩) = .error e := by
      rw [Nat.zero_add]
      exact herr
    have := readAllLoop_err m.decryptor clock vaults 0 j hj e hb0 herr0
    simp [CryptStore.ReadAll, hfetch, this]

/-- An opening capability that rejects the vault `[9]` and opens any
other vault to itself with `pastTime` as associated data. -/
def selDec : Bytes → Except GoError (Bytes × Bytes) :=
  fun v => if v = [9] then .error (.external "cipher: bad tag")
    else .ok (v, timeFormat pastTime)

/-- Decorator over the in-memory backend with the selective opener. -/
def cryptSel : CryptStore Store :=
  { storeOps := memOps, encryptor := anyEnc, decryptor := selDec }

/-- A store whose key "k" holds two vaults, the second undecryptable
by `selDec`. -/
def storeTwo : Store :=
  fun k => if k = "k" then some [[7], [9]] else none

/-- Witness for C5: with the first envelope opening fine and the
second failing, the whole call fails with the second envelope's
error. -/
theorem readAll_order_first_failure_witness :
    CryptStore.ReadAll cryptSel (fun _ => sampleTime) storeTwo "k" =
      .error (.external "cipher: bad tag") := by
  refine readAll_order_first_failure.2 Store cryptSel (fun _ => sampleTime) storeTwo "k"
    [[7], [9]] 1 (by decide) (.external "cipher: bad tag") rfl ?_ rfl
  intro l hl
  interval_cases l
  exact ⟨[7], rfl⟩

/-- C1: for an envelope whose decryption succeeds and whose embedded
timestamp parses, `CryptStore.Read` fails with `ValidationError` if
and only if the embedded timestamp is strictly after the opening
clock; an equal-or-earlier timestamp is accepted (the plaintext is
returned); and the same check governs every envelope of
`CryptStore.ReadAll` (each against its own clock reading). -/
theorem read_validation_iff :
    (∀ (σ : Type) (m : CryptStore σ) (now : GoTime) (s : σ) (key : String)
        (vault p meta : Bytes) (ts : GoTime),
        m.storeOps.read s key = .ok vault →
        m.decryptor vault = .ok (p, meta) →
        timeParse meta = some ts →
        ((∃ msg, m.Read now s key = .error (.validationError msg)) ↔
          timeAfter ts now = true) ∧
        (timeAfter ts now = false → m.Read now s key = .ok p)) ∧
    (∀ (σ : Type) (m : CryptStore σ) (clock : Nat → GoTime) (s : σ) (key : String)
        (vaults : List Bytes) (ps ms : Nat → Bytes) (tss : Nat → GoTime),
        m.storeOps.readAll s key = .ok vaults →
        (∀ j (hj : j < vaults.length), m.decryptor (vaults.get ⟨j, hj⟩) = .ok (ps j, ms j)) →
        (∀ j (hj : j < vaults.length), timeParse (ms j) = some (tss j)) →
        ((∃ msg, m.ReadAll clock s key = .error (.validationError msg)) ↔
          ∃ j, j < vaults.length ∧ timeAfter (tss j) (clock j) = true) ∧
        ((∀ j, j < vaults.length → timeAfter (tss j) (clock j) = false) →
          ∃ out, m.ReadAll clock s key = .ok out)) := by
  constructor
  · intro σ m now s key vault p meta ts hfetch hdec hparse
    have hread : m.Read now s key =
        (if timeAfter ts now then .error (.validationError "failed to validate sealing")
         else .ok p) := by
      simp only [CryptStore.Read, hfetch, openCheck, hdec, hparse]
    refine ⟨⟨?_, ?_⟩, ?_⟩
    · rintro ⟨msg, hmsg⟩
      rw [hread] at hmsg
      by_cases hb : timeAfter ts now = true
      · exact hb
      · rw [if_neg hb] at hmsg
        exact absurd hmsg (by simp)
    · intro hb
      rw [hread, if_pos hb]
      exact ⟨"failed to validate sealing", rfl⟩
    · intro hb
      rw [hread, if_neg (by simp [hb])]
  · intro σ m clock s key vaults ps ms tss hfetch hdec hparse
    have hra : m.ReadAll clock s key = readAllLoop m.decryptor clock 0 vaults := by
      simp [CryptStore.ReadAll, hfetch]
    have hopen : ∀ j (hj : j < vaults.length),
        openCheck m.decryptor (clock j) (vaults.get ⟨j, hj⟩) =
          (if timeAfter (tss j) (clock j) then
            .error (.validationError "failed to validate sealing") else .ok (ps j)) := by
      intro j hj
      simp only [openCheck, hdec j hj, hparse j hj]
    refine ⟨⟨?_, ?_⟩, ?_⟩
    · rintro ⟨msg, hmsg⟩
      by_contra hnone
      push_neg at hnone
      have hall : ∀ j (hj : j < vaults.length), ∃ r,
          openCheck m.decryptor (clock (0 + j)) (vaults.get ⟨j, hj⟩) = .ok r := by
        intro j hj
        rw [Nat.zero_add, hopen j hj, if_neg (by simp [hnone j hj])]
        exact ⟨ps j, rfl⟩
      obtain ⟨out, hout, h1, h2⟩ := readAllLoop_ok_ex m.decryptor clock vaults 0 hall
      rw [hra, hout] at hmsg
      exact absurd hmsg (by simp)
    · rintro ⟨j, hjlt, hstale⟩
      haveI : DecidablePred fun l => l < vaults.length ∧ timeAfter (tss l) (clock l) = true :=
        fun l => instDecidableAnd
      have hex : ∃ l, l < vaults.length ∧ timeAfter (tss l) (clock l) = true :=
        ⟨j, hjlt, hstale⟩
      obtain ⟨hfind1, hfind2⟩ := Nat.find_spec hex
      have hb : ∀ l (hl : l < Nat.find hex), ∃ r,
          openCheck m.decryptor (clock (0 + l))
            (vaults.get ⟨l, Nat.lt_trans hl hfind1⟩) = .ok r := by
        intro l hl
        have hnotP := Nat.find_min hex hl
        have hlt : l < vaults.length := Nat.lt_trans hl hfind1
        have hfresh : timeAfter (tss l) (clock l) = false := by
          cases hv : timeAfter (tss l) (clock l)
          · rfl
          · exact absurd ⟨hlt, hv⟩ hnotP
        rw [Nat.zero_add, hopen l hlt, if_neg (by simp [hfresh])]
        exact ⟨ps l, rfl⟩
      have herr : openCheck m.decryptor (clock (0 + Nat.find hex))
          (vaults.get ⟨Nat.find hex, hfind1⟩) =
          .error (.validationError "failed to validate sealing") := by
        rw [Nat.zero_add, hopen (Nat.find hex) hfind1, if_pos hfind2]
      have := readAllLoop_err m.decryptor clock vaults 0 (Nat.find hex) hfind1 _ hb herr
      rw [hra, this]
      exact ⟨"failed to validate sealing", rfl⟩
    · intro hfresh
      have hall : ∀ j (hj : j < vaults.length), ∃ r,
          openCheck m.decryptor (clock (0 + j)) (vaults.get ⟨j, hj⟩) = .ok r := by
        intro j hj
        rw [Nat.zero_add, hopen j hj, if_neg (by simp [hfresh j hj])]
        exact ⟨ps j, rfl⟩
      obtain ⟨out, hout, h1, h2⟩ := readAllLoop_ok_ex m.decryptor clock vaults 0 hall
      exact ⟨out, by rw [hra, hout]⟩

/-- An opening capability embedding a past timestamp. -/
def tsDec : Bytes → Except GoError (Bytes × Bytes) :=
  fun v => .ok (v, timeFormat pastTime)

/-- An opening capability embedding a future timestamp. -/
def futDec : Bytes → Except GoError (Bytes × Bytes) :=
  fun v => .ok (v, timeFormat futureTime)

/-- Decorator whose envelopes carry a past (fresh) timestamp. -/
def cryptTS : CryptStore Store :=
  { storeOps := memOps, encryptor := anyEnc, decryptor := tsDec }

/-- Decorator whose envelopes carry a future (stale-signal)
timestamp. -/
def cryptFut : CryptStore Store :=
  { storeOps := memOps, encryptor := anyEnc, decryptor := futDec }

/-- Witness for C1: a past-stamped envelope is accepted, a
future-stamped envelope is rejected with `ValidationError`. -/
theorem read_validation_iff_witness :
    CryptStore.Read cryptTS sampleTime storeWithVault "k" = .ok [1, 2, 3] ∧
    (∃ msg, CryptStore.Read cryptFut sampleTime storeWithVault "k" =
      .error (.validationError msg)) :=
  ⟨(read_validation_iff.1 Store cryptTS sampleTime storeWithVault "k" [1, 2, 3] [1, 2, 3]
      (timeFormat pastTime) pastTime rfl rfl
      (timeParse_timeFormat pastTime (by decide))).2 rfl,
   (read_validation_iff.1 Store cryptFut sampleTime storeWithVault "k" [1, 2, 3] [1, 2, 3]
      (timeFormat futureTime) futureTime rfl rfl
      (timeParse_timeFormat futureTime (by decide))).1.mpr rfl⟩
